import Mathlib

/-!
Verification of the result-future primitive in
`py-polars/polars/utils/_async.py` (`_AsyncDataFrameResult`).

The Python class holds a `queue.Queue` handoff channel and a `_result`
slot initialised to `None`.  `get(block=True, timeout=None)`:

* if `_result is not None`: raise it when it is an `Exception`,
  otherwise return it (cached path, no channel access);
* otherwise `_result = queue.get(block=block, timeout=timeout)`;
  if the received payload is an `Exception` raise it (it stays cached),
  otherwise `_result = wrap_df(_result)` and return it.

The embedding below mirrors this statement by statement.  Python values
that can live in the queue or in the slot are modelled by `PyVal`;
`wrap_df` (repository code outside the analysed file) is kept as an
explicit function parameter, so theorems quantify over the adapter.
Each call also reports instrumentation (`GetEffects`): how many channel
receive attempts were made, how many payloads were actually dequeued,
how many adapter invocations happened, and the successive values
assigned to the `_result` slot.
-/

namespace PolarsAsync

/-- A Python value as far as this module can observe it: `None`, an
`Exception` carrying an identity, a raw `PyDataFrame` payload as pushed by
the producer, or a wrapped `DataFrame` produced by the adapter. -/
inductive PyVal where
  | pynone : PyVal
  | exc : Nat → PyVal
  | raw : Nat → PyVal
  | df : Nat → PyVal
deriving DecidableEq

/-- Modelled from the spec: the adapter collaborator (`wrap_df`, defined in
`polars/utils/_wrap.py`, outside the analysed file) maps the producer's raw
success payload to the consumer-facing value; it may itself raise.  Theorems
take the adapter as an arbitrary function of this type. -/
def WrapFn : Type := PyVal → Except Nat PyVal

/-- Outcome of one call of `queue.Queue.get`. -/
inductive QGet where
  | delivers : PyVal → QGet
  | emptyExc : QGet
  | hang : QGet
deriving DecidableEq

/-- `queue.Queue.get(block, timeout)` from the Python standard library,
which the source calls on its handoff channel.  `arrival` is the
environment oracle: `some p` means the producer pushes `p` during this
call's wait window.  Per the stdlib semantics, a non-blocking call on an
empty queue raises `queue.Empty`, and a blocking call whose bounded wait
elapses raises the same `queue.Empty`; a blocking call with no timeout
waits indefinitely. -/
def queueGet (block : Bool) (timeout : Option Nat) (arrival : Option PyVal)
    (q : List PyVal) : QGet × List PyVal :=
  match q with
  | p :: rest => (QGet.delivers p, rest)
  | [] =>
    if block then
      match arrival with
      | some p => (QGet.delivers p, [])
      | none =>
        match timeout with
        | some _ => (QGet.emptyExc, [])
        | none => (QGet.hang, [])
    else (QGet.emptyExc, [])

/-- What one call of `_AsyncDataFrameResult.get` does from the caller's
point of view: return a value, raise a Python exception `e`, raise
`queue.Empty`, or never return. -/
inductive GetResult where
  | ok : PyVal → GetResult
  | error : Nat → GetResult
  | emptyError : GetResult
  | hang : GetResult
deriving DecidableEq

/-- The mutable state of one `_AsyncDataFrameResult`: the items currently
in its handoff channel and the `_result` slot (`PyVal.pynone` initially,
mirroring `self._result = None` in `__init__`). -/
structure FutState where
  queue : List PyVal
  result : PyVal
deriving DecidableEq

/-- `_AsyncDataFrameResult.__init__`: the slot starts as `None` with
whatever the producer has pushed so far sitting in the channel. -/
def initFut (q : List PyVal) : FutState := ⟨q, PyVal.pynone⟩

/-- Instrumentation of one or several `get` calls: `receives` counts
invocations of `queue.get` (attempts), `delivered` counts attempts that
actually dequeued a payload, `wraps` counts invocations of the adapter
`wrap_df`, and `writes` lists the successive values assigned to the
`_result` slot. -/
structure GetEffects where
  receives : Nat
  delivered : Nat
  wraps : Nat
  writes : List PyVal
deriving DecidableEq

def GetEffects.zero : GetEffects := ⟨0, 0, 0, []⟩

def GetEffects.append (a b : GetEffects) : GetEffects :=
  ⟨a.receives + b.receives, a.delivered + b.delivered,
    a.wraps + b.wraps, a.writes ++ b.writes⟩

/-- `_AsyncDataFrameResult.get(block, timeout)`, statement by statement:

* `if self._result is not None:` — cached path: raise when the slot holds
  an `Exception`, otherwise return the slot;
* `self._result = self.queue.get(block=block, timeout=timeout)` — one
  receive attempt; `queue.Empty` (or an indefinite block) propagates with
  the slot untouched;
* `if isinstance(self._result, Exception): raise self._result`;
* `self._result = wrap_df(self._result)` — adapter invoked; if it raises,
  the raw payload stays in the slot;
* `return self._result`. -/
def get (w : WrapFn) (block : Bool) (timeout : Option Nat)
    (arrival : Option PyVal) (st : FutState) :
    GetResult × FutState × GetEffects :=
  if st.result ≠ PyVal.pynone then
    match st.result with
    | PyVal.exc e => (GetResult.error e, st, GetEffects.zero)
    | v => (GetResult.ok v, st, GetEffects.zero)
  else
    match queueGet block timeout arrival st.queue with
    | (QGet.hang, q) => (GetResult.hang, ⟨q, st.result⟩, ⟨1, 0, 0, []⟩)
    | (QGet.emptyExc, q) =>
        (GetResult.emptyError, ⟨q, st.result⟩, ⟨1, 0, 0, []⟩)
    | (QGet.delivers p, q) =>
      match p with
      | PyVal.exc e =>
          (GetResult.error e, ⟨q, PyVal.exc e⟩, ⟨1, 1, 0, [PyVal.exc e]⟩)
      | v =>
        match w v with
        | Except.error we =>
            (GetResult.error we, ⟨q, v⟩, ⟨1, 1, 1, [v]⟩)
        | Except.ok u =>
            (GetResult.ok u, ⟨q, u⟩, ⟨1, 1, 1, [v, u]⟩)

/-- Parameters of one sequential `get` call, together with the arrival
oracle for its wait window. -/
structure GetCall where
  block : Bool
  timeout : Option Nat
  arrival : Option PyVal
deriving DecidableEq

/-- A sequence of `get` calls by a single (sequential) consumer: the list
of outcomes, the final state, and the accumulated effects. -/
def runGets (w : WrapFn) (calls : List GetCall) (st : FutState) :
    List GetResult × FutState × GetEffects :=
  match calls with
  | [] => ([], st, GetEffects.zero)
  | c :: cs =>
    let g := get w c.block c.timeout c.arrival st
    let rest := runGets w cs g.2.1
    (g.1 :: rest.1, rest.2.1, GetEffects.append g.2.2 rest.2.2)

/-- The outcome the cached path of `get` produces from a filled slot. -/
def cachedOutcome (st : FutState) : GetResult :=
  match st.result with
  | PyVal.exc e => GetResult.error e
  | v => GetResult.ok v

/-- Modelled from the spec: a canonical adapter instance for concrete
runs — it wraps a raw payload into the corresponding `DataFrame` and
raises on anything that is not a raw payload. -/
def wrapDfModel : WrapFn := fun v =>
  match v with
  | PyVal.raw d => Except.ok (PyVal.df d)
  | _ => Except.error 0

/-!
Interleaved execution model for concurrent `get` callers.  Each thread
runs the body of `get` once; the shared state (queue, `_result` slot and
a ghost adapter-invocation counter) is touched one atomic access at a
time, so two threads may interleave between the `_result is not None`
check and the `queue.get` call — exactly the window the source leaves
unguarded (it takes no lock).
-/

/-- Program counter of one thread inside `get`: about to perform the
cache check; about to call `queue.get`; having dequeued a payload and
stored it in the shared slot, about to inspect/adapt it; or done with an
outcome.  A thread at `atRecv` facing an empty queue with `block=True`
and no timeout is blocked: its step leaves it at `atRecv`. -/
inductive TStatus where
  | atCheck : TStatus
  | atRecv : TStatus
  | gotPayload : PyVal → TStatus
  | finished : GetResult → TStatus
deriving DecidableEq

/-- One concurrent caller of `get`: its `block`/`timeout` arguments and
its program counter. -/
structure Thread where
  block : Bool
  timeout : Option Nat
  status : TStatus
deriving DecidableEq

/-- Shared state plus all threads.  `wraps` is a ghost counter of adapter
invocations.  The producer has already pushed: its item (if any) sits in
`queue`, and no further arrivals occur. -/
structure Config where
  queue : List PyVal
  result : PyVal
  wraps : Nat
  threads : List Thread
deriving DecidableEq

/-- One atomic step of a single thread against the shared state,
mirroring the statements of `get`: the cache check (read of the slot and
branch), the `queue.get` call (dequeue into the slot, or raise
`queue.Empty` when the wait would fail, or stay blocked), and the
inspect/adapt/store sequence on the re-read slot.  Returns the new shared
`(queue, result, wraps)` and the thread's new program counter. -/
def stepThread (w : WrapFn) (q : List PyVal) (r : PyVal) (wr : Nat)
    (t : Thread) : (List PyVal × PyVal × Nat) × TStatus :=
  match t.status with
  | TStatus.atCheck =>
    if r ≠ PyVal.pynone then
      match r with
      | PyVal.exc e => ((q, r, wr), TStatus.finished (GetResult.error e))
      | v => ((q, r, wr), TStatus.finished (GetResult.ok v))
    else ((q, r, wr), TStatus.atRecv)
  | TStatus.atRecv =>
    match q with
    | p :: rest => ((rest, p, wr), TStatus.gotPayload p)
    | [] =>
      if t.block then
        match t.timeout with
        | some _ => ((q, r, wr), TStatus.finished GetResult.emptyError)
        | none => ((q, r, wr), TStatus.atRecv)
      else ((q, r, wr), TStatus.finished GetResult.emptyError)
  | TStatus.gotPayload _ =>
    match r with
    | PyVal.exc e => ((q, r, wr), TStatus.finished (GetResult.error e))
    | v =>
      match w v with
      | Except.error we =>
          ((q, r, wr + 1), TStatus.finished (GetResult.error we))
      | Except.ok u => ((q, u, wr + 1), TStatus.finished (GetResult.ok u))
  | TStatus.finished res => ((q, r, wr), TStatus.finished res)

/-- Let thread `i` take one atomic step (no-op for an out-of-range
index). -/
def step (w : WrapFn) (c : Config) (i : Nat) : Config :=
  match c.threads[i]? with
  | Option.none => c
  | some t =>
    let s := stepThread w c.queue c.result c.wraps t
    ⟨s.1.1, s.1.2.1, s.1.2.2, c.threads.set i ⟨t.block, t.timeout, s.2⟩⟩

/-- Run a schedule: the list of thread indices taking successive steps. -/
def run (w : WrapFn) (c : Config) (sched : List Nat) : Config :=
  match sched with
  | [] => c
  | i :: rest => run w (step w c i) rest

/-- 1 when a thread has dequeued a payload but not yet finished. -/
def gotBit : TStatus → Nat
  | TStatus.gotPayload _ => 1
  | _ => 0

def gotCount (ts : List Thread) : Nat :=
  (ts.map (fun t => gotBit t.status)).sum

/-- Bound on future adapter invocations: invocations so far, plus items
still in the channel, plus threads holding a dequeued payload. -/
def potential (c : Config) : Nat :=
  c.wraps + c.queue.length + gotCount c.threads

/-- Two blocking no-timeout callers racing on a future whose producer
pushed `raw 0`, both about to run the cache check. -/
def raceStart : Config :=
  ⟨[PyVal.raw 0], PyVal.pynone, 0,
    [⟨true, Option.none, TStatus.atCheck⟩,
      ⟨true, Option.none, TStatus.atCheck⟩]⟩

/-- The configuration the race reaches: the first caller consumed and
adapted the single item, the second is blocked inside `queue.get` on the
now-empty channel. -/
def raceStuck : Config :=
  ⟨[], PyVal.df 0, 1,
    [⟨true, Option.none, TStatus.finished (GetResult.ok (PyVal.df 0))⟩,
      ⟨true, Option.none, TStatus.atRecv⟩]⟩

theorem GetEffects.append_zero (a : GetEffects) :
    GetEffects.append a GetEffects.zero = a := by
  cases a
  simp [GetEffects.append, GetEffects.zero]

theorem GetEffects.zero_append (a : GetEffects) :
    GetEffects.append GetEffects.zero a = a := by
  cases a
  simp [GetEffects.append, GetEffects.zero]

theorem get_cached_eq (w : WrapFn) (b : Bool) (t : Option Nat)
    (a : Option PyVal) (st : FutState) (h : st.result ≠ PyVal.pynone) :
    get w b t a st = (cachedOutcome st, st, GetEffects.zero) := by
  obtain ⟨q, r⟩ := st
  cases r with
  | pynone => exact absurd rfl h
  | exc e => simp [get, cachedOutcome]
  | raw d => simp [get, cachedOutcome]
  | df d => simp [get, cachedOutcome]

theorem runGets_cached_eq (w : WrapFn) (calls : List GetCall)
    (st : FutState) (h : st.result ≠ PyVal.pynone) :
    runGets w calls st =
      (calls.map (fun _ => cachedOutcome st), st, GetEffects.zero) := by
  induction calls with
  | nil => simp [runGets]
  | cons c cs ih =>
    simp [runGets, get_cached_eq w c.block c.timeout c.arrival st h, ih,
      GetEffects.zero_append]

theorem cachedOutcome_ne_hang (st : FutState) :
    cachedOutcome st ≠ GetResult.hang := by
  obtain ⟨q, r⟩ := st
  cases r <;> simp [cachedOutcome]

/-- C1: for a future whose producer pushed the single success payload
`raw x`, every `get` call of a non-empty sequential call sequence —
whatever its `block`, `timeout` and arrival-oracle parameters — returns
the adapted value `wrap_df(x)`, and across the whole sequence the channel
is received from exactly once. -/
theorem get_success_idempotent (w : WrapFn) (x y : Nat)
    (calls : List GetCall) (hw : w (PyVal.raw x) = Except.ok (PyVal.df y))
    (hne : calls ≠ []) :
    (runGets w calls (initFut [PyVal.raw x])).1 =
      calls.map (fun _ => GetResult.ok (PyVal.df y)) ∧
    (runGets w calls (initFut [PyVal.raw x])).2.2.receives = 1 := by
  cases calls with
  | nil => exact absurd rfl hne
  | cons c cs =>
    have hfirst : get w c.block c.timeout c.arrival (initFut [PyVal.raw x])
        = (GetResult.ok (PyVal.df y), ⟨[], PyVal.df y⟩,
            ⟨1, 1, 1, [PyVal.raw x, PyVal.df y]⟩) := by
      simp [get, initFut, queueGet, hw]
    have hrest := runGets_cached_eq w cs ⟨[], PyVal.df y⟩ (by simp)
    simp [runGets, hfirst, hrest, cachedOutcome, GetEffects.append,
      GetEffects.zero]

/-- Witness for C1: a concrete producer payload `raw 2` with the canonical
adapter and two `get` calls with different parameters. -/
theorem get_success_idempotent_witness :
    (runGets wrapDfModel
        [⟨true, Option.none, Option.none⟩, ⟨false, some 3, Option.none⟩]
        (initFut [PyVal.raw 2])).1 =
      [GetResult.ok (PyVal.df 2), GetResult.ok (PyVal.df 2)] ∧
    (runGets wrapDfModel
        [⟨true, Option.none, Option.none⟩, ⟨false, some 3, Option.none⟩]
        (initFut [PyVal.raw 2])).2.2.receives = 1 := by
  have h := get_success_idempotent wrapDfModel 2 2
      [⟨true, Option.none, Option.none⟩, ⟨false, some 3, Option.none⟩]
      rfl (by simp)
  simpa using h

/-- C2: for a future whose producer pushed `Failure(e)`, every `get` call
of a non-empty sequential call sequence raises the very same error `e`,
and the error stays cached in the slot. -/
theorem get_failure_idempotent (w : WrapFn) (e : Nat)
    (calls : List GetCall) (hne : calls ≠ []) :
    (runGets w calls (initFut [PyVal.exc e])).1 =
      calls.map (fun _ => GetResult.error e) ∧
    (runGets w calls (initFut [PyVal.exc e])).2.1.result = PyVal.exc e := by
  cases calls with
  | nil => exact absurd rfl hne
  | cons c cs =>
    have hfirst : get w c.block c.timeout c.arrival (initFut [PyVal.exc e])
        = (GetResult.error e, ⟨[], PyVal.exc e⟩,
            ⟨1, 1, 0, [PyVal.exc e]⟩) := by
      simp [get, initFut, queueGet]
    have hrest := runGets_cached_eq w cs ⟨[], PyVal.exc e⟩ (by simp)
    simp [runGets, hfirst, hrest, cachedOutcome]

/-- Witness for C2: a concrete producer failure `exc 7` observed
identically by two consecutive `get` calls. -/
theorem get_failure_idempotent_witness :
    (runGets wrapDfModel
        [⟨true, Option.none, Option.none⟩, ⟨true, some 1, Option.none⟩]
        (initFut [PyVal.exc 7])).1 =
      [GetResult.error 7, GetResult.error 7] ∧
    (runGets wrapDfModel
        [⟨true, Option.none, Option.none⟩, ⟨true, some 1, Option.none⟩]
        (initFut [PyVal.exc 7])).2.1.result = PyVal.exc 7 := by
  have h := get_failure_idempotent wrapDfModel 7
      [⟨true, Option.none, Option.none⟩, ⟨true, some 1, Option.none⟩]
      (by simp)
  simpa using h

/-- C3: once the slot is filled (`cached` is `Some`), no sequence of later
`get` calls ever attempts a channel receive, the state is left exactly as
it was, and no call blocks. -/
theorem cached_path_no_channel (w : WrapFn) (calls : List GetCall)
    (st : FutState) (h : st.result ≠ PyVal.pynone) :
    (runGets w calls st).2.2.receives = 0 ∧
    (runGets w calls st).2.1 = st ∧
    ∀ r ∈ (runGets w calls st).1, r ≠ GetResult.hang := by
  have hrun := runGets_cached_eq w calls st h
  refine ⟨by simp [hrun, GetEffects.zero], by simp [hrun], ?_⟩
  intro r hr
  rw [hrun] at hr
  simp only [List.mem_map] at hr
  obtain ⟨c, -, hceq⟩ := hr
  exact hceq ▸ cachedOutcome_ne_hang st

/-- Witness for C3: a future already holding `df 5`: three further calls
make no receive attempt, change nothing and never hang. -/
theorem cached_path_no_channel_witness :
    (runGets wrapDfModel
        [⟨true, Option.none, Option.none⟩, ⟨false, Option.none, Option.none⟩,
          ⟨true, some 9, Option.none⟩]
        ⟨[], PyVal.df 5⟩).2.2.receives = 0 ∧
    (runGets wrapDfModel
        [⟨true, Option.none, Option.none⟩, ⟨false, Option.none, Option.none⟩,
          ⟨true, some 9, Option.none⟩]
        ⟨[], PyVal.df 5⟩).2.1 = ⟨[], PyVal.df 5⟩ ∧
    GetResult.hang ∉ (runGets wrapDfModel
        [⟨true, Option.none, Option.none⟩, ⟨false, Option.none, Option.none⟩,
          ⟨true, some 9, Option.none⟩]
        ⟨[], PyVal.df 5⟩).1 := by
  have h := cached_path_no_channel wrapDfModel
      [⟨true, Option.none, Option.none⟩, ⟨false, Option.none, Option.none⟩,
        ⟨true, some 9, Option.none⟩]
      ⟨[], PyVal.df 5⟩ (by simp)
  exact ⟨h.1, h.2.1, fun hmem => h.2.2 _ hmem rfl⟩

/-- C4: a `get` whose channel receive fails for wait-policy reasons
(non-blocking with nothing queued, or a bounded wait that elapses) raises
`queue.Empty` and changes nothing: the slot stays `None`, the queue stays
as it was, and a later `get` on the very same future can still succeed
once the producer delivers. -/
theorem failed_wait_self_loop (w : WrapFn) (b : Bool) (t : Option Nat)
    (a : Option PyVal) (x y : Nat)
    (hfail : b = false ∨ (t ≠ Option.none ∧ a = Option.none))
    (hw : w (PyVal.raw x) = Except.ok (PyVal.df y)) :
    get w b t a ⟨[], PyVal.pynone⟩ =
      (GetResult.emptyError, ⟨[], PyVal.pynone⟩, ⟨1, 0, 0, []⟩) ∧
    (get w true Option.none (some (PyVal.raw x)) ⟨[], PyVal.pynone⟩).1 =
      GetResult.ok (PyVal.df y) := by
  constructor
  · rcases hfail with hb | ⟨ht, ha⟩
    · subst hb
      simp [get, queueGet]
    · subst ha
      cases t with
      | none => exact absurd rfl ht
      | some d => cases b <;> simp [get, queueGet]
  · simp [get, queueGet, hw]

/-- Witness for C4: a bounded wait that elapses on a pending future is a
pure self-loop, and the next call (producer now delivering `raw 1`)
succeeds. -/
theorem failed_wait_self_loop_witness :
    get wrapDfModel true (some 2) Option.none ⟨[], PyVal.pynone⟩ =
      (GetResult.emptyError, ⟨[], PyVal.pynone⟩, ⟨1, 0, 0, []⟩) ∧
    (get wrapDfModel true Option.none (some (PyVal.raw 1))
        ⟨[], PyVal.pynone⟩).1 = GetResult.ok (PyVal.df 1) := by
  exact failed_wait_self_loop wrapDfModel true (some 2) Option.none 1 1
    (Or.inr ⟨by simp, rfl⟩) rfl

/-- C5 counterexample: the source delegates the wait to
`queue.Queue.get`, which raises the single exception class `queue.Empty`
both when a bounded blocking wait elapses and when a non-blocking call
finds nothing queued — the timed-out call does not fail with an error
kind distinct from the would-block case, but with the identical one. -/
theorem timeout_same_error_as_wouldblock_cex :
    (get wrapDfModel true (some 5) Option.none ⟨[], PyVal.pynone⟩).1 =
      GetResult.emptyError ∧
    (get wrapDfModel false Option.none Option.none
        ⟨[], PyVal.pynone⟩).1 = GetResult.emptyError ∧
    (get wrapDfModel true (some 5) Option.none ⟨[], PyVal.pynone⟩).1 =
      (get wrapDfModel false Option.none Option.none
        ⟨[], PyVal.pynone⟩).1 := by
  decide

/-- C5 amended: when the bounded wait elapses with nothing produced,
`get` fails by raising `queue.Empty` — the same exception class raised
when a non-blocking `get` finds nothing queued — and in both cases the
slot stays empty and the state is unchanged, so the wait may be
retried. -/
theorem timeout_raises_empty_like_wouldblock (w : WrapFn) (d : Nat) :
    get w true (some d) Option.none ⟨[], PyVal.pynone⟩ =
      (GetResult.emptyError, ⟨[], PyVal.pynone⟩, ⟨1, 0, 0, []⟩) ∧
    get w false Option.none Option.none ⟨[], PyVal.pynone⟩ =
      (GetResult.emptyError, ⟨[], PyVal.pynone⟩, ⟨1, 0, 0, []⟩) := by
  constructor <;> simp [get, queueGet]

/-- C6 counterexample: during the first successful `get` on a future
whose producer pushed `raw 0`, the `_result` slot is assigned twice —
first the raw unadapted payload, then the adapted value, which overwrites
it with a different value.  So the slot is not written exactly once, it
is overwritten, and the raw payload is cached before (not after)
adaptation. -/
theorem cached_two_writes_cex :
    (get wrapDfModel true Option.none Option.none
        (initFut [PyVal.raw 0])).2.2.writes =
      [PyVal.raw 0, PyVal.df 0] ∧
    PyVal.raw 0 ≠ PyVal.df 0 := by
  decide

/-- C6 amended: the slot never reverts to `None` and, once filled, is
never written again by any later call (later calls write nothing and
leave the state untouched); within the first successful `get`, however,
the slot is written twice: first the raw payload received from the
channel, then the adapted value that overwrites it. -/
theorem cached_write_discipline (w : WrapFn) (x y : Nat)
    (calls : List GetCall) (st : FutState)
    (hw : w (PyVal.raw x) = Except.ok (PyVal.df y))
    (h : st.result ≠ PyVal.pynone) :
    (runGets w calls st).2.2.writes = [] ∧
    (runGets w calls st).2.1 = st ∧
    (get w true Option.none Option.none
        (initFut [PyVal.raw x])).2.2.writes = [PyVal.raw x, PyVal.df y] := by
  have hrun := runGets_cached_eq w calls st h
  refine ⟨by simp [hrun, GetEffects.zero], by simp [hrun], ?_⟩
  simp [get, initFut, queueGet, hw]

/-- Witness for C6 amended: concrete filled future `df 4` and concrete
first success on `raw 3`. -/
theorem cached_write_discipline_witness :
    (runGets wrapDfModel [⟨true, Option.none, Option.none⟩]
        ⟨[], PyVal.df 4⟩).2.2.writes = [] ∧
    (runGets wrapDfModel [⟨true, Option.none, Option.none⟩]
        ⟨[], PyVal.df 4⟩).2.1 = ⟨[], PyVal.df 4⟩ ∧
    (get wrapDfModel true Option.none Option.none
        (initFut [PyVal.raw 3])).2.2.writes = [PyVal.raw 3, PyVal.df 3] := by
  exact cached_write_discipline wrapDfModel 3 3
    [⟨true, Option.none, Option.none⟩] ⟨[], PyVal.df 4⟩ rfl (by simp)

theorem GetEffects.append_receives (a b : GetEffects) :
    (GetEffects.append a b).receives = a.receives + b.receives := rfl

theorem GetEffects.append_delivered (a b : GetEffects) :
    (GetEffects.append a b).delivered = a.delivered + b.delivered := rfl

theorem GetEffects.append_wraps (a b : GetEffects) :
    (GetEffects.append a b).wraps = a.wraps + b.wraps := rfl

theorem GetEffects.append_writes (a b : GetEffects) :
    (GetEffects.append a b).writes = a.writes ++ b.writes := rfl

theorem get_starved_state (w : WrapFn) (b : Bool) (t : Option Nat) :
    (get w b t Option.none ⟨[], PyVal.pynone⟩).2.1 =
      ⟨[], PyVal.pynone⟩ := by
  cases b <;> cases t <;> simp [get, queueGet]

theorem get_starved_eff (w : WrapFn) (b : Bool) (t : Option Nat) :
    (get w b t Option.none ⟨[], PyVal.pynone⟩).2.2 = ⟨1, 0, 0, []⟩ := by
  cases b <;> cases t <;> simp [get, queueGet]

theorem runGets_starved (w : WrapFn) (calls : List GetCall)
    (h : ∀ c ∈ calls, c.arrival = Option.none) :
    (runGets w calls ⟨[], PyVal.pynone⟩).2.1 = ⟨[], PyVal.pynone⟩ ∧
    (runGets w calls ⟨[], PyVal.pynone⟩).2.2.wraps = 0 ∧
    (runGets w calls ⟨[], PyVal.pynone⟩).2.2.delivered = 0 := by
  induction calls with
  | nil => simp [runGets, GetEffects.zero]
  | cons c cs ih =>
    have ha := h c (by simp)
    have hrest := ih (fun c' hc' => h c' (by simp [hc']))
    simp [runGets, ha, get_starved_state w c.block c.timeout,
      get_starved_eff w c.block c.timeout, hrest.1, hrest.2.1, hrest.2.2,
      GetEffects.append_wraps, GetEffects.append_delivered]

theorem runGets_no_wrap_after (w : WrapFn) (cs : List GetCall) (u : PyVal)
    (hacs : ∀ c ∈ cs, c.arrival = Option.none) :
    (runGets w cs ⟨[], u⟩).2.2.wraps = 0 := by
  by_cases hu : u = PyVal.pynone
  · subst hu
    exact (runGets_starved w cs hacs).2.1
  · simp [runGets_cached_eq w cs ⟨[], u⟩ hu, GetEffects.zero]

/-- C7: with the producer's single item already in the channel and no
further production, the adapter is invoked exactly once over any
non-empty sequence of sequential `get` calls when the item is a success
payload (whether the adapter returns or raises), never when the item is a
failure, and never when no `get` has been called yet (construction alone
invokes nothing). -/
theorem adapter_at_most_once (w : WrapFn) (d e : Nat)
    (calls : List GetCall)
    (ha : ∀ c ∈ calls, c.arrival = Option.none) :
    (runGets w calls (initFut [PyVal.raw d])).2.2.wraps ≤ 1 ∧
    (runGets w calls (initFut [PyVal.exc e])).2.2.wraps = 0 ∧
    (runGets w ([] : List GetCall) (initFut [PyVal.raw d])).2.2.wraps = 0 ∧
    (calls ≠ [] →
      (runGets w calls (initFut [PyVal.raw d])).2.2.wraps = 1) := by
  have hexc : (runGets w calls (initFut [PyVal.exc e])).2.2.wraps = 0 := by
    cases calls with
    | nil => simp [runGets, GetEffects.zero]
    | cons c cs =>
      have hfirst : get w c.block c.timeout c.arrival (initFut [PyVal.exc e])
          = (GetResult.error e, ⟨[], PyVal.exc e⟩,
              ⟨1, 1, 0, [PyVal.exc e]⟩) := by
        simp [get, initFut, queueGet]
      have hrest := runGets_cached_eq w cs ⟨[], PyVal.exc e⟩ (by simp)
      simp [runGets, hfirst, hrest, GetEffects.append, GetEffects.zero]
  have hraw : calls ≠ [] →
      (runGets w calls (initFut [PyVal.raw d])).2.2.wraps = 1 := by
    intro hne
    cases calls with
    | nil => exact absurd rfl hne
    | cons c cs =>
      have hacs : ∀ c' ∈ cs, c'.arrival = Option.none :=
        fun c' hc' => ha c' (by simp [hc'])
      cases hwd : w (PyVal.raw d) with
      | error we =>
        have hfirst : get w c.block c.timeout c.arrival
            (initFut [PyVal.raw d]) =
            (GetResult.error we, ⟨[], PyVal.raw d⟩,
              ⟨1, 1, 1, [PyVal.raw d]⟩) := by
          simp [get, initFut, queueGet, hwd]
        have hrest := runGets_cached_eq w cs ⟨[], PyVal.raw d⟩ (by simp)
        simp [runGets, hfirst, hrest, GetEffects.append, GetEffects.zero]
      | ok u =>
        have hfirst : get w c.block c.timeout c.arrival
            (initFut [PyVal.raw d]) =
            (GetResult.ok u, ⟨[], u⟩, ⟨1, 1, 1, [PyVal.raw d, u]⟩) := by
          simp [get, initFut, queueGet, hwd]
        simp [runGets, hfirst, GetEffects.append,
          runGets_no_wrap_after w cs u hacs]
  refine ⟨?_, hexc, by simp [runGets, GetEffects.zero], hraw⟩
  by_cases hne : calls = []
  · subst hne
    simp [runGets, GetEffects.zero]
  · rw [hraw hne]

/-- Witness for C7: producer payload `raw 0` (resp. failure `exc 1`) with
two sequential calls: the adapter runs exactly once (resp. never). -/
theorem adapter_at_most_once_witness :
    (runGets wrapDfModel
        [⟨true, Option.none, Option.none⟩, ⟨false, Option.none, Option.none⟩]
        (initFut [PyVal.raw 0])).2.2.wraps ≤ 1 ∧
    (runGets wrapDfModel
        [⟨true, Option.none, Option.none⟩, ⟨false, Option.none, Option.none⟩]
        (initFut [PyVal.exc 1])).2.2.wraps = 0 ∧
    (runGets wrapDfModel ([] : List GetCall)
        (initFut [PyVal.raw 0])).2.2.wraps = 0 ∧
    (runGets wrapDfModel
        [⟨true, Option.none, Option.none⟩, ⟨false, Option.none, Option.none⟩]
        (initFut [PyVal.raw 0])).2.2.wraps = 1 := by
  have h := adapter_at_most_once wrapDfModel 0 1
      [⟨true, Option.none, Option.none⟩, ⟨false, Option.none, Option.none⟩]
      (by decide)
  exact ⟨h.1, h.2.1, h.2.2.1, h.2.2.2 (by simp)⟩

/-- C9: when the adapter raises on the first successful `get`, that call
raises the adapter's error, but the raw unadapted payload remains stored
in the slot; every later sequential call returns that raw payload as if
it were the final result, and the adapter is never invoked again (one
invocation in total). -/
theorem wrap_failure_caches_raw (w : WrapFn) (d we : Nat) (c : GetCall)
    (cs : List GetCall) (hw : w (PyVal.raw d) = Except.error we) :
    (runGets w (c :: cs) (initFut [PyVal.raw d])).1 =
      GetResult.error we :: cs.map (fun _ => GetResult.ok (PyVal.raw d)) ∧
    (runGets w (c :: cs) (initFut [PyVal.raw d])).2.1.result =
      PyVal.raw d ∧
    (runGets w (c :: cs) (initFut [PyVal.raw d])).2.2.wraps = 1 := by
  have hfirst : get w c.block c.timeout c.arrival (initFut [PyVal.raw d]) =
      (GetResult.error we, ⟨[], PyVal.raw d⟩, ⟨1, 1, 1, [PyVal.raw d]⟩) := by
    simp [get, initFut, queueGet, hw]
  have hrest := runGets_cached_eq w cs ⟨[], PyVal.raw d⟩ (by simp)
  simp [runGets, hfirst, hrest, cachedOutcome, GetEffects.append,
    GetEffects.zero]

/-- Witness for C9: an adapter that always raises `9`, on payload `raw 0`
and two calls: first call raises `9`, second returns the raw payload. -/
theorem wrap_failure_caches_raw_witness :
    (runGets (fun _ => Except.error 9)
        [⟨true, Option.none, Option.none⟩, ⟨true, Option.none, Option.none⟩]
        (initFut [PyVal.raw 0])).1 =
      [GetResult.error 9, GetResult.ok (PyVal.raw 0)] ∧
    (runGets (fun _ => Except.error 9)
        [⟨true, Option.none, Option.none⟩, ⟨true, Option.none, Option.none⟩]
        (initFut [PyVal.raw 0])).2.1.result = PyVal.raw 0 ∧
    (runGets (fun _ => Except.error 9)
        [⟨true, Option.none, Option.none⟩, ⟨true, Option.none, Option.none⟩]
        (initFut [PyVal.raw 0])).2.2.wraps = 1 := by
  have h := wrap_failure_caches_raw (fun _ => Except.error 9) 0 9
      ⟨true, Option.none, Option.none⟩ [⟨true, Option.none, Option.none⟩] rfl
  simpa using h

theorem queueGet_cases (b : Bool) (t : Option Nat) (a : Option PyVal)
    (q : List PyVal) (hq : PyVal.pynone ∉ q)
    (ha : a ≠ some PyVal.pynone) :
    (∃ p q', queueGet b t a q = (QGet.delivers p, q') ∧
      p ≠ PyVal.pynone ∧ PyVal.pynone ∉ q') ∨
    queueGet b t a q = (QGet.emptyExc, q) ∨
    queueGet b t a q = (QGet.hang, q) := by
  cases q with
  | cons p rest =>
    left
    refine ⟨p, rest, rfl, ?_, ?_⟩
    · intro hp
      exact hq (by simp [hp])
    · intro hr
      exact hq (by simp [hr])
  | nil =>
    cases b with
    | false =>
      right; left
      simp [queueGet]
    | true =>
      cases a with
      | some p =>
        left
        refine ⟨p, [], by simp [queueGet], ?_, by simp⟩
        intro hp
        rw [hp] at ha
        exact ha rfl
      | none =>
        cases t with
        | some d =>
          right; left
          simp [queueGet]
        | none =>
          right; right
          simp [queueGet]

theorem get_pending_cases (w : WrapFn) (b : Bool) (t : Option Nat)
    (a : Option PyVal) (q : List PyVal)
    (hq : PyVal.pynone ∉ q) (ha : a ≠ some PyVal.pynone)
    (hw : ∀ v, w v ≠ Except.ok PyVal.pynone) :
    ((get w b t a ⟨q, PyVal.pynone⟩).2.2.delivered = 0 ∧
      (get w b t a ⟨q, PyVal.pynone⟩).2.1 = ⟨q, PyVal.pynone⟩) ∨
    ((get w b t a ⟨q, PyVal.pynone⟩).2.2.delivered = 1 ∧
      (get w b t a ⟨q, PyVal.pynone⟩).2.1.result ≠ PyVal.pynone ∧
      PyVal.pynone ∉ (get w b t a ⟨q, PyVal.pynone⟩).2.1.queue) := by
  rcases queueGet_cases b t a q hq ha with
    ⟨p, q', hqg, hp, hq'⟩ | hqg | hqg
  · right
    cases p with
    | pynone => exact absurd rfl hp
    | exc e => simp [get, hqg, hq']
    | raw n =>
      cases hwv : w (PyVal.raw n) with
      | ok u =>
        have hu : u ≠ PyVal.pynone := by
          intro h
          rw [h] at hwv
          exact hw (PyVal.raw n) hwv
        simp [get, hqg, hwv, hu, hq']
      | error we => simp [get, hqg, hwv, hq']
    | df n =>
      cases hwv : w (PyVal.df n) with
      | ok u =>
        have hu : u ≠ PyVal.pynone := by
          intro h
          rw [h] at hwv
          exact hw (PyVal.df n) hwv
        simp [get, hqg, hwv, hu, hq']
      | error we => simp [get, hqg, hwv, hq']
  · left
    simp [get, hqg]
  · left
    simp [get, hqg]

theorem runGets_pending_iff_aux (w : WrapFn)
    (hw : ∀ v, w v ≠ Except.ok PyVal.pynone) :
    ∀ (calls : List GetCall) (q : List PyVal), PyVal.pynone ∉ q →
      (∀ c ∈ calls, c.arrival ≠ some PyVal.pynone) →
      ((runGets w calls ⟨q, PyVal.pynone⟩).2.1.result = PyVal.pynone ↔
        (runGets w calls ⟨q, PyVal.pynone⟩).2.2.delivered = 0) := by
  intro calls
  induction calls with
  | nil =>
    intro q hq ha
    simp [runGets, GetEffects.zero]
  | cons c cs ih =>
    intro q hq ha
    have hacs : ∀ c' ∈ cs, c'.arrival ≠ some PyVal.pynone :=
      fun c' hc' => ha c' (by simp [hc'])
    rcases get_pending_cases w c.block c.timeout c.arrival q hq
        (ha c (by simp)) hw with ⟨hd, hst⟩ | ⟨hd, hres, hqf⟩
    · simp only [runGets, hst, GetEffects.append_delivered, hd,
        Nat.zero_add]
      exact ih q hq hacs
    · have hrest := runGets_cached_eq w cs
        (get w c.block c.timeout c.arrival ⟨q, PyVal.pynone⟩).2.1 hres
      simp [runGets, hrest, hd, hres, GetEffects.append, GetEffects.zero]

/-- C10: over any sequential run from a fresh future, the slot holds
`None` exactly when no channel receive has yet delivered a payload —
provided the producer never pushes `None` and the adapter never returns
`None`; and the precondition is needed: a producer that pushes `None`
(here with an adapter that raises) leaves the slot `None`, so the next
`get` performs a second channel receive. -/
theorem pending_iff_no_delivery (w : WrapFn) (calls : List GetCall)
    (q : List PyVal) (hq : PyVal.pynone ∉ q)
    (ha : ∀ c ∈ calls, c.arrival ≠ some PyVal.pynone)
    (hw : ∀ v, w v ≠ Except.ok PyVal.pynone) :
    ((runGets w calls (initFut q)).2.1.result = PyVal.pynone ↔
      (runGets w calls (initFut q)).2.2.delivered = 0) ∧
    (runGets (fun _ => Except.error 3)
        [⟨true, Option.none, Option.none⟩, ⟨false, Option.none, Option.none⟩]
        (initFut [PyVal.pynone])).2.2.receives = 2 := by
  refine ⟨runGets_pending_iff_aux w hw calls q hq ha, by decide⟩

/-- Witness for C10: a delivered `raw 4` payload with the canonical
adapter: the slot is non-`None` and exactly one delivery happened. -/
theorem pending_iff_no_delivery_witness :
    ((runGets wrapDfModel [⟨true, Option.none, Option.none⟩]
        (initFut [PyVal.raw 4])).2.1.result = PyVal.pynone ↔
      (runGets wrapDfModel [⟨true, Option.none, Option.none⟩]
        (initFut [PyVal.raw 4])).2.2.delivered = 0) ∧
    (runGets (fun _ => Except.error 3)
        [⟨true, Option.none, Option.none⟩, ⟨false, Option.none, Option.none⟩]
        (initFut [PyVal.pynone])).2.2.receives = 2 := by
  exact pending_iff_no_delivery wrapDfModel
    [⟨true, Option.none, Option.none⟩] [PyVal.raw 4] (by decide)
    (by decide) (fun v => by cases v <;> simp [wrapDfModel])

theorem gotCount_set (ts : List Thread) (i : Nat) (t t' : Thread)
    (h : ts[i]? = some t) :
    gotCount (ts.set i t') + gotBit t.status =
      gotCount ts + gotBit t'.status := by
  induction ts generalizing i with
  | nil => simp at h
  | cons a l ih =>
    cases i with
    | zero =>
      simp at h
      subst h
      simp [gotCount]
      omega
    | succ n =>
      simp at h
      have := ih n h
      simp [gotCount] at this ⊢
      omega

theorem stepThread_potential (w : WrapFn) (q : List PyVal) (r : PyVal)
    (wr : Nat) (t : Thread) :
    (stepThread w q r wr t).1.2.2 + (stepThread w q r wr t).1.1.length +
        gotBit (stepThread w q r wr t).2 ≤
      wr + q.length + gotBit t.status := by
  obtain ⟨b, tmo, s⟩ := t
  cases s with
  | atCheck => cases r <;> simp [stepThread, gotBit]
  | atRecv =>
    cases q with
    | cons p rest =>
      simp [stepThread, gotBit]
      omega
    | nil => cases b <;> cases tmo <;> simp [stepThread, gotBit]
  | gotPayload p =>
    cases r with
    | exc e => simp [stepThread, gotBit]
    | pynone =>
      cases hwv : w PyVal.pynone <;> simp [stepThread, hwv, gotBit] <;>
        omega
    | raw n =>
      cases hwv : w (PyVal.raw n) <;> simp [stepThread, hwv, gotBit] <;>
        omega
    | df n =>
      cases hwv : w (PyVal.df n) <;> simp [stepThread, hwv, gotBit] <;>
        omega
  | finished res => simp [stepThread, gotBit]

theorem step_potential (w : WrapFn) (c : Config) (i : Nat) :
    potential (step w c i) ≤ potential c := by
  obtain ⟨q, r, wr, ts⟩ := c
  cases hti : ts[i]? with
  | none => simp [step, hti]
  | some t =>
    have hpot : potential (step w ⟨q, r, wr, ts⟩ i) =
        (stepThread w q r wr t).1.2.2 +
          (stepThread w q r wr t).1.1.length +
          gotCount (ts.set i
            ⟨t.block, t.timeout, (stepThread w q r wr t).2⟩) := by
      simp [step, hti, potential]
    rw [hpot]
    have hset : gotCount (ts.set i
          ⟨t.block, t.timeout, (stepThread w q r wr t).2⟩) +
        gotBit t.status =
        gotCount ts + gotBit (stepThread w q r wr t).2 := by
      simpa using gotCount_set ts i t
        ⟨t.block, t.timeout, (stepThread w q r wr t).2⟩ hti
    have hstep := stepThread_potential w q r wr t
    simp only [potential]
    omega

theorem run_potential (w : WrapFn) (c : Config) (sched : List Nat) :
    potential (run w c sched) ≤ potential c := by
  induction sched generalizing c with
  | nil => simp [run]
  | cons i rest ih =>
    simp only [run]
    exact le_trans (ih (step w c i)) (step_potential w c i)

theorem gotCount_atCheck (ts : List Thread)
    (h : ∀ t ∈ ts, t.status = TStatus.atCheck) : gotCount ts = 0 := by
  induction ts with
  | nil => simp [gotCount]
  | cons a l ih =>
    have ha := h a (by simp)
    have hl := ih (fun t ht => h t (by simp [ht]))
    simp [gotCount, ha, gotBit] at hl ⊢
    exact hl

theorem step_raceStuck (i : Nat) :
    step wrapDfModel raceStuck i = raceStuck := by
  match i with
  | 0 => decide
  | 1 => decide
  | n + 2 =>
    simp [step, raceStuck]

theorem run_raceStuck (sched : List Nat) :
    run wrapDfModel raceStuck sched = raceStuck := by
  induction sched with
  | nil => simp [run]
  | cons i rest ih =>
    simp only [run, step_raceStuck]
    exact ih

/-- C8 counterexample: `get` takes no lock, so the check-cache /
channel-receive / cache-write sequence is not atomic.  Two blocking
callers both pass the `_result is not None` check while the slot is
still empty; the first then consumes and adapts the single produced
item, and the second is left blocked inside `queue.get` on the empty
channel (thread 1 stuck at `atRecv`, and the reached configuration is a
fixpoint of both threads' steps) — the produced item is stolen and the
second caller never observes the outcome. -/
theorem concurrent_get_race_cex :
    run wrapDfModel raceStart [0, 1, 0, 0] = raceStuck ∧
    raceStuck.threads[1]? =
      some ⟨true, Option.none, TStatus.atRecv⟩ ∧
    step wrapDfModel raceStuck 0 = raceStuck ∧
    step wrapDfModel raceStuck 1 = raceStuck := by
  refine ⟨by decide, by decide, by decide, by decide⟩

/-- C8 amended: even under concurrently interleaved `get` calls the
adapter is invoked at most once per future (any number of threads, any
schedule, producer item already in the channel); but the sequence is not
atomic — the race configuration in which the second caller is blocked on
the drained channel is stable under every continuation schedule, so that
caller never observes the outcome. -/
theorem concurrent_adapter_at_most_once (w : WrapFn) (q0 : List PyVal)
    (ts0 : List Thread) (sched sched' : List Nat)
    (hq : q0.length ≤ 1)
    (hts : ∀ t ∈ ts0, t.status = TStatus.atCheck) :
    (run w ⟨q0, PyVal.pynone, 0, ts0⟩ sched).wraps ≤ 1 ∧
    run wrapDfModel raceStuck sched' = raceStuck := by
  refine ⟨?_, run_raceStuck sched'⟩
  have h1 : (run w ⟨q0, PyVal.pynone, 0, ts0⟩ sched).wraps ≤
      potential (run w ⟨q0, PyVal.pynone, 0, ts0⟩ sched) := by
    simp only [potential]
    omega
  have h2 := run_potential w ⟨q0, PyVal.pynone, 0, ts0⟩ sched
  have h3 : potential ⟨q0, PyVal.pynone, 0, ts0⟩ = q0.length := by
    simp [potential, gotCount_atCheck ts0 hts]
  omega

/-- Witness for C8 amended: the concrete race of two blocking callers on
producer item `raw 0`: at most one adapter invocation, and the stuck
configuration survives a further schedule. -/
theorem concurrent_adapter_at_most_once_witness :
    (run wrapDfModel
        ⟨[PyVal.raw 0], PyVal.pynone, 0,
          [⟨true, Option.none, TStatus.atCheck⟩,
            ⟨true, Option.none, TStatus.atCheck⟩]⟩
        [0, 1, 0, 0]).wraps ≤ 1 ∧
    run wrapDfModel raceStuck [1, 0, 1] = raceStuck := by
  exact concurrent_adapter_at_most_once wrapDfModel [PyVal.raw 0]
    [⟨true, Option.none, TStatus.atCheck⟩,
      ⟨true, Option.none, TStatus.atCheck⟩]
    [0, 1, 0, 0] [1, 0, 1] (by decide) (by decide)

end PolarsAsync
